import Mathlib

/-!
Verification of the docflow SDK against its natural-language specification.

This file contains a shallow embedding of the two components the claims are
about, translated from `src/sdks/python/docflow`:

* the RAG markdown chunker (`docflow/rag/chunker.py`, class `RAGChunker`);
* the batch job coordinator (`docflow/batch_processor.py`, class
  `BatchProcessor`) together with the dataclasses it uses
  (`docflow/types.py`).

Python strings are embedded as `List Char`; Python string primitives
(`str.strip`, `str.split`, `str.find`, slicing, `in`) are given faithful
counterparts below.  Stateful code is embedded by explicit state passing:
the per-job mutations performed by `_process_queue_job` become a function
from the job record (plus the sequence of per-file outcomes delivered by the
worker pool, in the order the coordinator awaits them) to the final job
record.  Python's object aliasing, which claim C5 is about, is modelled with
an explicit object heap (object ids standing for references).
-/

namespace DocFlow

/-- Python strings are embedded as lists of characters. -/
abbrev Str := List Char

/-- The characters Python's `str.strip()` removes (ASCII whitespace:
space, tab, newline, carriage return, vertical tab, form feed). -/
def pyIsSpace (c : Char) : Bool :=
  c == ' ' || c == '\t' || c == '\n' || c == '\r' ||
    c == Char.ofNat 11 || c == Char.ofNat 12

/-- Python `s.strip()`: drop whitespace from both ends. -/
def pyStrip (s : Str) : Str :=
  ((s.dropWhile pyIsSpace).reverse.dropWhile pyIsSpace).reverse

/-- Python `s.split("\n")`.  `splitLines [] = [[]]`, matching
`"".split("\n") == [""]`. -/
def splitLines : Str → List Str
  | [] => [[]]
  | c :: rest =>
    match splitLines rest with
    | [] => [[]]
    | l :: ls => if c == '\n' then [] :: l :: ls else (c :: l) :: ls

/-- Helper for `findFrom`: first index `j' ≥ j` (counting from the given
offset) at which `sub` occurs in the remaining text `t`. -/
def findSubAux (sub : Str) : Str → Nat → Option Nat
  | [], j => if sub.isPrefixOf ([] : Str) then some j else none
  | c :: t, j =>
    if sub.isPrefixOf (c :: t) then some j else findSubAux sub t (j + 1)

/-- Python `s.find(sub, start)`: index of the first occurrence of `sub` in
`s` at or after `start`, or `none` (Python `-1`). -/
def findFrom (s sub : Str) (start : Nat) : Option Nat :=
  findSubAux sub (s.drop start) start

/-- Python `sub in s` (substring containment). -/
def containsSub (s sub : Str) : Bool :=
  (findFrom s sub 0).isSome

/-- Python `s[-k:]` for `k` ≥ 0.  Note Python's quirk that `s[-0:]` is the
whole string; the chunker only uses this with `k > 0`. -/
def takeLast (k : Nat) (s : Str) : Str :=
  if k == 0 then s else s.drop (s.length - k)

/-! ### Chunker data model (`docflow/types.py`) -/

/-- The fields of `RAGConfig` (types.py, `@dataclass RAGConfig`) consulted by
`RAGChunker`.  Fields the chunker never reads (LLM options, extraction
options, `max_workers`, ...) are not modelled.  `keep_tables_together` is
declared in the source but never read by the chunker either; it is kept for
completeness.  Defaults are the source's defaults. -/
structure RAGConfig where
  chunk_size : Nat := 1000
  chunk_overlap : Nat := 200
  respect_headings : Bool := true
  keep_tables_together : Bool := true
  add_chunk_markers : Bool := true
deriving DecidableEq, Repr

/-- `ChunkMetadata` (types.py).  `content_type` defaults to `"text"`. -/
structure ChunkMetadata where
  section_title : Str := []
  heading_path : List Str := []
  heading_levels : List Nat := []
  has_table : Bool := false
  has_image : Bool := false
  has_code : Bool := false
  page : Nat := 0
  section_index : Nat := 0
  subsection_index : Nat := 0
  content_type : Str := "text".toList
deriving DecidableEq, Repr

/-- `Chunk` (types.py).  The `embedding : Optional[List[float]]` field is
omitted: it is never set by the chunker (floating point, out of scope). -/
structure Chunk where
  content : Str
  index : Nat
  start_char : Nat
  end_char : Nat
  metadata : Option ChunkMetadata := none
deriving DecidableEq, Repr

/-! ### `RAGChunker._extract_frontmatter` -/

/-- The three-character string `---`. -/
def dashes3 : Str := "---".toList

/-- `RAGChunker._extract_frontmatter` (chunker.py lines 74-82): if the input
starts with `---` and `---` occurs again at index ≥ 3, return
`(content, frontmatter)` where both are whitespace-stripped; otherwise
return the input unchanged with empty frontmatter. -/
def extract_frontmatter (markdown : Str) : Str × Str :=
  if dashes3.isPrefixOf markdown then
    match findFrom markdown dashes3 3 with
    | some e =>
      if 0 < e then
        (pyStrip (markdown.drop (e + 3)), pyStrip ((markdown.drop 3).take (e - 3)))
      else (markdown, [])
    | none => (markdown, [])
  else (markdown, [])

/-! ### `RAGChunker._split_by_headings`

The source applies `re.finditer(r'^(#{1,6})\s+(.+)$', content, re.MULTILINE)`.
We embed the regex semantics exactly: a match begins at a line start (`^`),
takes a maximal run of 1-6 `#` (more than 6 consecutive `#` can never match,
since after backtracking the next character is another `#`, not `\s`), then
`\s+` greedily (it may cross newlines!), then `(.+)` to the end of that line
(`.` excludes `\n`), backtracking `\s+` by one character when the greedy run
reaches the end of the string.  `finditer` then resumes scanning after the
match end, which always sits at a line end. -/

/-- Length of the current line: distance to the next `'\n'` or end. -/
def lineLen (s : Str) : Nat := (s.takeWhile (fun c => c != '\n')).length

/-- Backtracking helper: the largest `j` with `1 ≤ j < m` such that the
character of `t` at `j` is not `'\n'` (so that `.+` can start there). -/
def backJ (t : Str) (m : Nat) : Option Nat :=
  (List.range m).foldl
    (fun acc j => if 1 ≤ j && t.getD j ' ' != '\n' then some j else acc) none

/-- Try to match `^(#{1,6})\s+(.+)$` at a line start.  On success, return
`group(2)` together with the offset (from the line start) of the match end. -/
def tryHeading (s : Str) : Option (Str × Nat) :=
  let r := (s.takeWhile (fun c => c == '#')).length
  if 1 ≤ r && r ≤ 6 then
    let t := s.drop r
    let m := (t.takeWhile pyIsSpace).length
    if m == 0 then none
    else if m < t.length then
      let g2 := (t.drop m).takeWhile (fun c => c != '\n')
      some (g2, r + m + g2.length)
    else
      match backJ t m with
      | some j =>
        let g2 := (t.drop j).takeWhile (fun c => c != '\n')
        some (g2, r + j + g2.length)
      | none => none
  else none

/-- Scan all line starts, collecting `(match.start, group(2))` for each
regex match, resuming after each match end (`finditer` is non-overlapping).
`fuel` bounds the number of scanned line starts; every step consumes at
least one character, so `content.length + 1` suffices. -/
def find_headings_aux : Nat → Str → Nat → List (Nat × Str)
  | 0, _, _ => []
  | fuel + 1, s, p =>
    if s.isEmpty then []
    else
      match tryHeading s with
      | some (g2, c) => (p, g2) :: find_headings_aux fuel (s.drop (c + 1)) (p + c + 1)
      | none =>
        let l := lineLen s
        find_headings_aux fuel (s.drop (l + 1)) (p + l + 1)

/-- All heading matches of the content, as `(match.start, group(2))`. -/
def find_headings (content : Str) : List (Nat × Str) :=
  find_headings_aux (content.length + 1) content 0

/-- `RAGChunker._split_by_headings` (chunker.py lines 84-112): fold over
heading matches, emitting `(last_title, stripped slice)` sections, then the
stripped remainder; fall back to a single `("", content)` section. -/
def split_by_headings (content : Str) : List (Str × Str) :=
  let step := fun (st : Nat × Str × List (Str × Str)) (m : Nat × Str) =>
    let sections :=
      if st.1 < m.1 then
        let sc := pyStrip ((content.drop st.1).take (m.1 - st.1))
        if sc ≠ [] then st.2.2 ++ [(st.2.1, sc)] else st.2.2
      else st.2.2
    (m.1, pyStrip m.2, sections)
  let fin := (find_headings content).foldl step (0, [], [])
  let sections :=
    if fin.1 < content.length then
      let remaining := pyStrip (content.drop fin.1)
      if remaining ≠ [] then fin.2.2 ++ [(fin.2.1, remaining)] else fin.2.2
    else fin.2.2
  if sections = [] then [([], content)] else sections

/-! ### `RAGChunker._find_protected_blocks` -/

/-- The code fence string. -/
def fence3 : Str := "```".toList

/-- The pipe character as a one-character string. -/
def pipe1 : Str := "|".toList

/-- Inner `while` of the code-fence case: smallest `j` at or after the given
start with `j = len(lines)` or `lines[j].strip().startswith("` ``` `")`.
`fuel = lines.length` suffices since `j` only ever moves right. -/
def codeScan (lines : List Str) : Nat → Nat → Nat
  | 0, j => j
  | fuel + 1, j =>
    match lines.get? j with
    | none => j
    | some ln => if fence3.isPrefixOf (pyStrip ln) then j else codeScan lines fuel (j + 1)

/-- Inner `while` of the table case: smallest `j` at or after the given
start with `j = len(lines)` or not `lines[j].strip().startswith("|")`. -/
def tableScan (lines : List Str) : Nat → Nat → Nat
  | 0, j => j
  | fuel + 1, j =>
    match lines.get? j with
    | none => j
    | some ln => if pipe1.isPrefixOf (pyStrip ln) then tableScan lines fuel (j + 1) else j

/-- Outer `while` of `_find_protected_blocks` (chunker.py lines 190-217).
Blocks are `(start_line, end_line, kind)` with inclusive bounds, exactly as
the source stores them.  `fuel` bounds loop iterations; since `i` strictly
increases each iteration, `lines.length + 1` suffices. -/
def find_protected_blocks_aux (lines : List Str) : Nat → Nat → List (Nat × Nat × Str)
  | 0, _ => []
  | fuel + 1, i =>
    match lines.get? i with
    | none => []
    | some ln =>
      let l := pyStrip ln
      if fence3.isPrefixOf l then
        let j := codeScan lines lines.length (i + 1)
        (i, j, "code".toList) :: find_protected_blocks_aux lines fuel (j + 1)
      else if pipe1.isPrefixOf l && pipe1.isSuffixOf l then
        let j := tableScan lines lines.length i
        (i, j - 1, "table".toList) :: find_protected_blocks_aux lines fuel j
      else
        find_protected_blocks_aux lines fuel (i + 1)

/-- `RAGChunker._find_protected_blocks(content)`. -/
def find_protected_blocks (content : Str) : List (Nat × Nat × Str) :=
  let lines := splitLines content
  find_protected_blocks_aux lines (lines.length + 1) 0

/-! ### `RAGChunker._extract_heading_path` and `RAGChunker._create_chunk` -/

/-- `RAGChunker._extract_heading_path` (chunker.py lines 246-254): for every
line starting with `#`, record `line.lstrip("#").strip()`.  (The source also
computes a `level` local that it never uses; it has no observable effect.) -/
def extract_heading_path (content : Str) : List Str :=
  (splitLines content).foldr
    (fun l acc =>
      if ("#".toList).isPrefixOf l then pyStrip (l.dropWhile (fun c => c == '#')) :: acc
      else acc)
    []

/-- `RAGChunker._create_chunk` (chunker.py lines 219-244).  Note
`has_table = "|" in content and "---" in content` and
`has_image = "![" in content or "[Image:" in content`:
pure substring checks. -/
def create_chunk (content : Str) (index : Nat) (start_char : Nat) (end_char : Nat)
    (section_title : Str) : Chunk :=
  { content := content
    index := index
    start_char := start_char
    end_char := end_char
    metadata := some
      { section_title := section_title
        heading_path := extract_heading_path content
        has_table := containsSub content pipe1 && containsSub content dashes3
        has_image := containsSub content ("![".toList) || containsSub content ("[Image:".toList) } }

/-! ### `RAGChunker._chunk_section` -/

/-- The `"\n".join(lines[b.start : b.end + 1])` content of a protected
block. -/
def blockContentOf (lines : List Str) (b : Nat × Nat × Str) : Str :=
  List.intercalate (['\n'] : Str) ((lines.drop b.1).take (b.2.1 + 1 - b.1))

/-- The `current_start` recomputation
`char_offset + sum(len(l) + 1 for l in lines[:i])`. -/
def restartPos (char_offset : Nat) (lines : List Str) (i : Nat) : Nat :=
  char_offset + ((lines.take i).map (fun l => l.length + 1)).sum

/-- The `while i < len(lines)` loop of `_chunk_section` (chunker.py lines
134-187), recursing on `fuel`.  Each iteration consumes at least one line
(protected blocks returned by `_find_protected_blocks` always satisfy
`end ≥ start`), so the initial fuel `lines.length + 1` is never exhausted;
on exhaustion we flush as at loop exit. -/
def chunk_section_aux (cfg : RAGConfig) (blocks : List (Nat × Nat × Str))
    (lines : List Str) (char_offset : Nat) (section_title : Str) (start_index : Nat) :
    Nat → Nat → Str → Nat → List Chunk → List Chunk
  | 0, _, cur, curStart, acc =>
    if pyStrip cur ≠ [] then
      acc ++ [create_chunk (pyStrip cur) (start_index + acc.length) curStart
        (curStart + cur.length) section_title]
    else acc
  | fuel + 1, i, cur, curStart, acc =>
    match lines.get? i with
    | none =>
      if pyStrip cur ≠ [] then
        acc ++ [create_chunk (pyStrip cur) (start_index + acc.length) curStart
          (curStart + cur.length) section_title]
      else acc
    | some line =>
      match blocks.find? (fun b => b.1 == i) with
      | some b =>
        let block_content := blockContentOf lines (i, b.2)
        let st :=
          if cfg.chunk_size < cur.length + block_content.length ∧ cur ≠ [] then
            (([] : Str), restartPos char_offset lines i,
              acc ++ [create_chunk (pyStrip cur) (start_index + acc.length) curStart
                (curStart + cur.length) section_title])
          else (cur, curStart, acc)
        chunk_section_aux cfg blocks lines char_offset section_title start_index
          fuel (b.2.1 + 1) (st.1 ++ block_content ++ ['\n']) st.2.1 st.2.2
      | none =>
        let st :=
          if cfg.chunk_size < cur.length + line.length ∧ cur ≠ [] then
            (([] : Str), restartPos char_offset lines i,
              acc ++ [create_chunk (pyStrip cur) (start_index + acc.length) curStart
                (curStart + cur.length) section_title])
          else (cur, curStart, acc)
        chunk_section_aux cfg blocks lines char_offset section_title start_index
          fuel (i + 1) (st.1 ++ line ++ ['\n']) st.2.1 st.2.2

/-- `RAGChunker._chunk_section` (chunker.py lines 114-188). -/
def chunk_section (cfg : RAGConfig) (content : Str) (section_title : Str)
    (start_index : Nat) (char_offset : Nat) : List Chunk :=
  let blocks := find_protected_blocks content
  let lines := splitLines content
  chunk_section_aux cfg blocks lines char_offset section_title start_index
    (lines.length + 1) 0 [] char_offset []

/-! ### `RAGChunker._add_overlap` and chunk markers -/

/-- The paragraph break `"\n\n"`. -/
def nlnl : Str := "\n\n".toList

/-- The sentence end `". "`. -/
def dotSpace : Str := ". ".toList

/-- The line break `"\n"`. -/
def nl1 : Str := "\n".toList

/-- The `"[...] "` overlap prefix. -/
def ellipsisPrefix : Str := "[...] ".toList

/-- The break-point scan of `_add_overlap` (chunker.py lines 270-275):
for each break string in `["\n\n", ". ", "\n"]` in order, if it occurs at an
index strictly greater than 0, drop everything through it and stop; a break
at index 0 (or absent) moves on to the next break string. -/
def trimToBreak (ot : Str) : Str :=
  match findFrom ot nlnl 0 with
  | some i =>
    if 0 < i then ot.drop (i + 2)
    else
      match findFrom ot dotSpace 0 with
      | some i2 =>
        if 0 < i2 then ot.drop (i2 + 2)
        else
          match findFrom ot nl1 0 with
          | some i3 => if 0 < i3 then ot.drop (i3 + 1) else ot
          | none => ot
      | none =>
        match findFrom ot nl1 0 with
        | some i3 => if 0 < i3 then ot.drop (i3 + 1) else ot
        | none => ot
  | none =>
    match findFrom ot dotSpace 0 with
    | some i2 =>
      if 0 < i2 then ot.drop (i2 + 2)
      else
        match findFrom ot nl1 0 with
        | some i3 => if 0 < i3 then ot.drop (i3 + 1) else ot
        | none => ot
    | none =>
      match findFrom ot nl1 0 with
      | some i3 => if 0 < i3 then ot.drop (i3 + 1) else ot
      | none => ot

/-- One iteration of the `_add_overlap` loop body (chunker.py lines
263-278), acting on chunk `i` with the (already decorated) content of chunk
`i - 1`: take the last `chunk_overlap` characters of the previous content,
trim to a break, and, when the stripped remainder is non-empty, prepend
`"[...] " + remainder.strip() + "\n\n"`. -/
def overlap_step (cfg : RAGConfig) (prev_content : Str) (curr : Chunk) : Chunk :=
  let overlap_text := trimToBreak (takeLast cfg.chunk_overlap prev_content)
  if pyStrip overlap_text ≠ [] then
    { curr with content := ellipsisPrefix ++ pyStrip overlap_text ++ nlnl ++ curr.content }
  else curr

/-- The `for i in range(1, len(chunks))` loop: chunk `i` is decorated using
the content of chunk `i - 1` as mutated by the previous iteration. -/
def add_overlap_go (cfg : RAGConfig) : Str → List Chunk → List Chunk
  | _, [] => []
  | prev, c :: rest =>
    let c2 := overlap_step cfg prev c
    c2 :: add_overlap_go cfg c2.content rest

/-- `RAGChunker._add_overlap` (chunker.py lines 256-280).  The
`full_content` parameter of the source is unused by its body and therefore
not modelled. -/
def add_overlap (cfg : RAGConfig) (chunks : List Chunk) : List Chunk :=
  if chunks.length ≤ 1 then chunks
  else
    match chunks with
    | [] => []
    | c0 :: rest => c0 :: add_overlap_go cfg c0.content rest

/-- The chunk-marker pass of `RAGChunker.chunk` (chunker.py lines 68-70):
append `"\n\n<!-- chunk_boundary: {i} -->"` to chunk `i` (enumeration
position, after overlap decoration). -/
def add_markers (chunks : List Chunk) : List Chunk :=
  chunks.enum.map (fun p =>
    { p.2 with content := p.2.content ++ ("\n\n<!-- chunk_boundary: ".toList)
        ++ (Nat.repr p.1).toList ++ (" -->".toList) })

/-- One iteration of the `for section_title, section_content in sections`
loop of `RAGChunker.chunk` (chunker.py lines 52-61): chunk the section at
the current `chunk_index` and `char_offset` and advance both. -/
def chunk_core_step (cfg : RAGConfig) (st : List Chunk × Nat × Nat) (s : Str × Str) :
    List Chunk × Nat × Nat :=
  let scs := chunk_section cfg s.2 s.1 st.2.1 st.2.2
  (st.1 ++ scs, st.2.1 + scs.length, st.2.2 + s.2.length)

/-- The section-assembly stage of `RAGChunker.chunk` (chunker.py lines
40-61): strip frontmatter, split into sections, and chunk each section,
threading `chunk_index` and `char_offset`. -/
def chunk_core (cfg : RAGConfig) (markdown : Str) : List Chunk :=
  let content := (extract_frontmatter markdown).1
  let sections :=
    if cfg.respect_headings then split_by_headings content else [(([] : Str), content)]
  (sections.foldl (chunk_core_step cfg) (([] : List Chunk), 0, 0)).1

/-- `RAGChunker.chunk` (chunker.py lines 31-72): section assembly, then
overlap decoration when `chunk_overlap > 0`, then chunk markers when
`add_chunk_markers`. -/
def chunkDoc (cfg : RAGConfig) (markdown : Str) : List Chunk :=
  let chunks := chunk_core cfg markdown
  let chunks := if 0 < cfg.chunk_overlap then add_overlap cfg chunks else chunks
  if cfg.add_chunk_markers then add_markers chunks else chunks

/-! ### Batch coordinator data model (`docflow/types.py`) -/

/-- `JobStatus` (types.py). -/
inductive JobStatus where
  | pending
  | processing
  | completed
  | failed
deriving DecidableEq, Repr

/-- `RAGDocument` (types.py), abstracted to its identity-relevant payload:
the batch coordinator stores and returns these values but never inspects
their fields, so a single opaque content field suffices for the embedding. -/
structure RAGDocument where
  content : Str
deriving DecidableEq, Repr

/-- `BatchJob` (types.py).  `errors` is a Python `dict` (insertion-ordered),
embedded as an association list updated by `dictInsert`. -/
structure BatchJob where
  job_id : Str
  status : JobStatus := JobStatus.pending
  total_files : Nat := 0
  processed_files : Nat := 0
  failed_files : Nat := 0
  results : List RAGDocument := []
  errors : List (Str × Str) := []
  created_at : Option Str := none
  completed_at : Option Str := none
deriving DecidableEq, Repr

/-- `BatchConfig` (types.py), with the source's defaults. -/
structure BatchConfig where
  max_workers : Nat := 4
  fail_fast : Bool := false
  continue_on_error : Bool := true
  timeout_per_file : Nat := 300
  queue_size : Nat := 100
  retry_failed : Bool := true
  max_retries : Nat := 3
deriving DecidableEq, Repr

/-- Python `d[k] = v` on an insertion-ordered `dict`: overwrite the value in
place if the key is present, else append the pair. -/
def dictInsert (d : List (Str × Str)) (k v : Str) : List (Str × Str) :=
  if d.any (fun p => p.1 == k) then d.map (fun p => if p.1 == k then (k, v) else p)
  else d ++ [(k, v)]

/-! ### `BatchProcessor` queue processing (batch_processor.py)

The async machinery is embedded by explicit state passing.
`_process_queue_job` submits one future per file and then awaits the
futures in input order, mutating the job record under the lock at each
completion; the sequence of per-file outcomes (success value, or the
message of the exception / timeout raised while awaiting) is the input of
the embedding.  A file's identifier is the string the source computes for
the `errors` key (`str(file_input)` for paths, `"unknown"` otherwise). -/

/-- `BatchProcessor.enqueue` (batch_processor.py lines 189-216), restricted
to the job record it allocates: a fresh `BatchJob` in `Pending` with
`total_files = len(files)` and all other fields at their defaults — in
particular `results` is the dataclass default empty list.  (The generated
uuid and timestamp are passed in.) -/
def enqueue (files : List Str) (job_id : Str) (now : Str) : BatchJob :=
  { job_id := job_id
    status := JobStatus.pending
    total_files := files.length
    created_at := some now }

/-- `BatchProcessor.cancel` (batch_processor.py lines 256-275) on a job
record that is present in the table: if the status is `Pending` or
`Processing`, set it to `Failed`, record `errors["cancelled"]`, and return
`True`; otherwise leave the record alone and return `False`.  (For an
unknown job id the source returns `False` without touching anything.) -/
def cancel (job : BatchJob) : BatchJob × Bool :=
  if job.status = JobStatus.pending ∨ job.status = JobStatus.processing then
    ({ job with
        status := JobStatus.failed,
        errors := dictInsert job.errors ("cancelled".toList) ("Job cancelled by user".toList) },
      true)
  else (job, false)

/-- The `for file_input, future in futures` loop of `_process_queue_job`
(batch_processor.py lines 305-324): await each outcome in input order; on
success append the result and bump `processed_files`; on failure record
`errors[filename]`, bump `failed_files`, and — when `fail_fast` — re-raise,
carrying the exception out of the loop (the `Option Str` component). -/
def run_loop (cfg : BatchConfig) :
    List (Str × Except Str RAGDocument) → BatchJob → BatchJob × Option Str
  | [], job => (job, none)
  | (name, out) :: rest, job =>
    match out with
    | Except.ok r =>
      run_loop cfg rest
        { job with results := job.results ++ [r], processed_files := job.processed_files + 1 }
    | Except.error e =>
      let job2 := { job with
        errors := dictInsert job.errors name e,
        failed_files := job.failed_files + 1 }
      if cfg.fail_fast then (job2, some e) else run_loop cfg rest job2

/-- `BatchProcessor._process_queue_job` (batch_processor.py lines 277-334):
set the status to `Processing`, run the await loop, then unconditionally
mark the job `Completed` — or, if an exception escaped the loop, mark it
`Failed` and record `errors["fatal"]`.  Note that neither final assignment
inspects the current status: a cancellation that happened in between is
overwritten. -/
def process_queue_job (cfg : BatchConfig) (outcomes : List (Str × Except Str RAGDocument))
    (job : BatchJob) (now : Str) : BatchJob :=
  let job1 := { job with status := JobStatus.processing }
  match run_loop cfg outcomes job1 with
  | (j, none) => { j with status := JobStatus.completed, completed_at := some now }
  | (j, some e) =>
    { j with
      status := JobStatus.failed,
      errors := dictInsert j.errors ("fatal".toList) e,
      completed_at := some now }

/-! ### The job table, object identity, `get_status` and `get_result`

Python hands out references to heap objects.  To state claim C5 (which is
about aliasing) we model the heap explicitly: `heap` maps object ids to
`BatchJob` records, and `self._jobs` maps job ids to object ids.  Returning
`job` in `get_status` returns the object id; a caller observes a returned
record by dereferencing, and worker mutations go through the table to the
same heap cell. -/

/-- The coordinator's shared state: the `self._jobs` table plus the object
heap the records live on. -/
structure ProcessorState where
  jobs_table : List (Str × Nat)
  heap : List (Nat × BatchJob)
deriving DecidableEq, Repr

/-- Dereference an object id. -/
def heapGet (heap : List (Nat × BatchJob)) (oid : Nat) : Option BatchJob :=
  (heap.find? (fun p => p.1 == oid)).map (fun p => p.2)

/-- Overwrite the record stored at an object id. -/
def heapSet (heap : List (Nat × BatchJob)) (oid : Nat) (j : BatchJob) :
    List (Nat × BatchJob) :=
  heap.map (fun p => if p.1 == oid then (oid, j) else p)

/-- `self._jobs.get(job_id)`: the object id the table maps the job id to. -/
def tableGet (st : ProcessorState) (job_id : Str) : Option Nat :=
  (st.jobs_table.find? (fun p => p.1 == job_id)).map (fun p => p.2)

/-- `BatchProcessor.get_status` (batch_processor.py lines 218-231): raise
`ValueError("Job not found: ...")` when the id is absent from `self._jobs`;
otherwise `return job` — i.e. return the reference to the coordinator's own
mutable record, not a copy. -/
def get_status (st : ProcessorState) (job_id : Str) : Except Str Nat :=
  match tableGet st job_id with
  | none => Except.error (("Job not found: ".toList) ++ job_id)
  | some oid => Except.ok oid

/-- The job record currently reachable from a job id (table lookup followed
by dereference). -/
def jobLookup (st : ProcessorState) (job_id : Str) : Option BatchJob :=
  (tableGet st job_id).bind (fun oid => heapGet st.heap oid)

/-- A worker mutation of the record owned by `job_id` (the source mutates
`job` fields in place under `self._job_lock`). -/
def mutateJob (st : ProcessorState) (job_id : Str) (f : BatchJob → BatchJob) :
    ProcessorState :=
  match tableGet st job_id with
  | none => st
  | some oid =>
    match heapGet st.heap oid with
    | some j => { st with heap := heapSet st.heap oid (f j) }
    | none => st

/-- The observable outcome of one `get_result` call. -/
inductive GetResultOutcome where
  | ok (results : List RAGDocument)
  | notFound (msg : Str)
  | failedJob (errors : List (Str × Str))
  | wouldWait
deriving DecidableEq, Repr

/-- `BatchProcessor.get_result` (batch_processor.py lines 233-254).  With
`wait = False` the `while wait` loop body never runs: the current record is
fetched once and its `results` list returned whatever its status.  With
`wait = True` we model a single poll of the loop: `Completed` returns the
results, `Failed` raises `RuntimeError` carrying the errors map, and a
non-terminal status means the call sleeps and polls again (`wouldWait`). -/
def get_result (st : ProcessorState) (job_id : Str) (wait : Bool) : GetResultOutcome :=
  match jobLookup st job_id with
  | none => GetResultOutcome.notFound (("Job not found: ".toList) ++ job_id)
  | some job =>
    if wait then
      match job.status with
      | JobStatus.completed => GetResultOutcome.ok job.results
      | JobStatus.failed => GetResultOutcome.failedJob job.errors
      | _ => GetResultOutcome.wouldWait
    else GetResultOutcome.ok job.results

/-! ## Spec-side definitions

The following definitions do not come from the source; they transcribe the
wording of the specification, so that the claims can be stated exactly as
written and compared with the behaviour of the embedded source.  Each is
named with a `spec` prefix. -/

/-- Modelled from the spec (C8): "take the last `chunkOverlap` characters of
the previous chunk's content, then trim forward to the first paragraph break
(`"\n\n"`), else sentence end (`". "`), else line break (`"\n"`) — whichever
is found first, scanning in that preference order".  Unlike the source, a
break at index 0 is accepted, and the remainder is not stripped. -/
def spec_trimmed_overlap (ot : Str) : Str :=
  match findFrom ot nlnl 0 with
  | some i => ot.drop (i + 2)
  | none =>
    match findFrom ot dotSpace 0 with
    | some i => ot.drop (i + 2)
    | none =>
      match findFrom ot nl1 0 with
      | some i => ot.drop (i + 1)
      | none => ot

/-- Modelled from the spec (C8): "for every chunk after the first ...
prepend the remainder to the current chunk's content as
`"[...] " + trimmedOverlap + "\n\n" + originalContent`", the previous
chunk's content being the original (un-decorated) one. -/
def spec_add_overlap_go (k : Nat) : Str → List Str → List Str
  | _, [] => []
  | prevOrig, c :: rest =>
    (ellipsisPrefix ++ spec_trimmed_overlap (takeLast k prevOrig) ++ nlnl ++ c)
      :: spec_add_overlap_go k c rest

/-- Modelled from the spec (C8): the overlap decoration applied to the whole
content sequence (first chunk untouched). -/
def spec_add_overlap (k : Nat) : List Str → List Str
  | [] => []
  | c0 :: rest => c0 :: spec_add_overlap_go k c0 rest

/-- Modelled from the spec (C6): the input begins with a line consisting of
exactly `---` and a later line consisting of exactly `---` follows. -/
def spec_leading_delimiter_pair (s : Str) : Prop :=
  (splitLines s).head? = some dashes3 ∧ dashes3 ∈ (splitLines s).drop 1

instance (s : Str) : Decidable (spec_leading_delimiter_pair s) := by
  unfold spec_leading_delimiter_pair; infer_instance

/-- A necessary syntactic condition for content to contain (or be) a
protected block in the sense of `_find_protected_blocks`: some line, once
stripped, starts with a code fence or a pipe.  Any chunk consisting of a
protected block satisfies this. -/
def containsProtectedMaterial (c : Str) : Bool :=
  (splitLines c).any (fun l => fence3.isPrefixOf (pyStrip l) || pipe1.isPrefixOf (pyStrip l))

/-- A permissive check for "this line is a table separator row": nonempty
after stripping and made only of `-`, `:`, `|` and spaces.  Every genuine
pipe-table separator row (e.g. `| --- | --- |`, `---|---`, `:-:|:-:`)
satisfies this, so a content containing a separator row contains such a
line. -/
def separatorRowish (l : Str) : Bool :=
  pyStrip l ≠ [] && (pyStrip l).all (fun c => c == '-' || c == ':' || c == '|' || c == ' ')

/-! ## The claims under test

Each `claimCn` formalizes claim `Cn` (or a logical consequence of it, in
which case refuting the formalization refutes the claim; the accompanying
doc comments spell out the direction). -/

/-- Claim C1, allocation part: "the BatchJob is allocated with a results
slice pre-sized to len(files)". -/
def claimC1 : Prop :=
  ∀ (files : List Str) (job_id now : Str),
    (enqueue files job_id now).results.length = files.length

/-- Claim C2: "after cancel succeeds the status never transitions back out
of Failed, and results produced by still-running workers after cancellation
are discarded rather than written into the job's results". -/
def claimC2 : Prop :=
  ∀ (cfg : BatchConfig) (job : BatchJob)
    (outs : List (Str × Except Str RAGDocument)) (now : Str),
    (cancel job).2 = true →
      (process_queue_job cfg outs (cancel job).1 now).status = JobStatus.failed ∧
      (process_queue_job cfg outs (cancel job).1 now).results = (cancel job).1.results

/-- Claim C4, stated for configurations whose chunks carry no overlap or
marker decoration (so that a chunk's content is exactly its "un-overlapped,
un-marked content"): every produced chunk either fits in `chunk_size` or is
a single oversized protected block — and a chunk that is a protected block
necessarily satisfies `containsProtectedMaterial`, so the claim implies this
proposition. -/
def claimC4 : Prop :=
  ∀ (cfg : RAGConfig) (text : Str), cfg.chunk_overlap = 0 → cfg.add_chunk_markers = false →
    ∀ c ∈ chunkDoc cfg text,
      c.content.length ≤ cfg.chunk_size ∨ containsProtectedMaterial c.content = true

/-- Claim C5, snapshot part: "the returned record is not an alias of the
coordinator's internal mutable record, so later worker mutations do not
retroactively change a snapshot previously handed to a caller": what a
caller observes through the record returned by `get_status` is unaffected
by a subsequent coordinator-side mutation. -/
def claimC5 : Prop :=
  ∀ (st : ProcessorState) (job_id : Str) (oid : Nat) (f : BatchJob → BatchJob),
    get_status st job_id = Except.ok oid →
      heapGet (mutateJob st job_id f).heap oid = heapGet st.heap oid

/-- Claim C6, "only when" part: the chunker "strips a leading YAML
frontmatter block only when it is delimited by a line consisting of exactly
`---` at the very start and a later matching `---` line, ... and leaves
input without such a leading delimiter pair unchanged". -/
def claimC6 : Prop :=
  ∀ s : Str, ¬ spec_leading_delimiter_pair s → (extract_frontmatter s).1 = s

/-- Claim C7, necessity part: "hasTable is true if and only if the chunk's
content contains a pipe-delimited table row together with a separator row
... content with no pipe-delimited table never sets hasTable".  A separator
row satisfies `separatorRowish`, so the claim implies: whenever `hasTable`
is set, some line of the content is separator-row-shaped.  (Stated for
undecorated configurations, a special case of the claim.) -/
def claimC7 : Prop :=
  ∀ (cfg : RAGConfig) (text : Str), cfg.chunk_overlap = 0 → cfg.add_chunk_markers = false →
    ∀ c ∈ chunkDoc cfg text,
      c.metadata.map ChunkMetadata.has_table = some true →
        (splitLines c.content).any separatorRowish = true

/-- Claim C8: with `chunkOverlap > 0` (and, so that content is observable,
no chunk markers) every chunk after the first is rewritten to
`"[...] " + trimmedOverlap + "\n\n" + originalContent` with
`trimmedOverlap` as the spec describes it, and `startChar`/`endChar` are
unchanged. -/
def claimC8 : Prop :=
  ∀ (cfg : RAGConfig) (text : Str), 0 < cfg.chunk_overlap → cfg.add_chunk_markers = false →
    (chunkDoc cfg text).map Chunk.content =
        spec_add_overlap cfg.chunk_overlap ((chunk_core cfg text).map Chunk.content) ∧
      (chunkDoc cfg text).map Chunk.start_char = (chunk_core cfg text).map Chunk.start_char ∧
      (chunkDoc cfg text).map Chunk.end_char = (chunk_core cfg text).map Chunk.end_char

/-! ## Concrete scenario constants used by counterexamples and witnesses -/

/-- A first file name. -/
def fileN1 : Str := "f1".toList

/-- A second file name. -/
def fileN2 : Str := "f2".toList

/-- A third file name. -/
def fileN3 : Str := "f3".toList

/-- A job id. -/
def jid : Str := "job-1".toList

/-- A submission timestamp. -/
def t0 : Str := "t0".toList

/-- A completion timestamp. -/
def t1 : Str := "t1".toList

/-- A successful document for file 1. -/
def doc1 : RAGDocument := { content := "doc1".toList }

/-- A successful document for file 3. -/
def doc3 : RAGDocument := { content := "doc3".toList }

/-- A job freshly enqueued with two files. -/
def job2Files : BatchJob := enqueue [fileN1, fileN2] jid t0

/-- A job freshly enqueued with one file. -/
def job1File : BatchJob := enqueue [fileN1] jid t0

/-- A job freshly enqueued with three files. -/
def job3Files : BatchJob := enqueue [fileN1, fileN2, fileN3] jid t0

/-- Outcomes for three files of which the second fails. -/
def outs3 : List (Str × Except Str RAGDocument) :=
  [(fileN1, Except.ok doc1), (fileN2, Except.error ("boom".toList)), (fileN3, Except.ok doc3)]

/-- The configuration of the C4 counterexample: `chunk_size = 5`, no
decoration, headings not respected. -/
def cfgC4 : RAGConfig :=
  { chunk_size := 5, chunk_overlap := 0, respect_headings := false, add_chunk_markers := false }

/-- The C4 counterexample input: one ordinary 10-character line, containing
no protected block whatsoever. -/
def inC4 : Str := "abcdefghij".toList

/-- The C6 counterexample input: starts with the three characters `---` but
contains no line consisting of `---`. -/
def inC6 : Str := "---abc---def".toList

/-- The configuration of the C7 counterexample (no decoration, headings not
respected, default `chunk_size`). -/
def cfgC7 : RAGConfig :=
  { chunk_overlap := 0, respect_headings := false, add_chunk_markers := false }

/-- The C7 counterexample input: contains a `|` and a `---` but no table row
and no separator row under any reading. -/
def inC7 : Str := "a|b\nc --- d".toList

/-- The configuration of the C8 counterexample. -/
def cfgC8 : RAGConfig :=
  { chunk_size := 10, chunk_overlap := 6, respect_headings := false, add_chunk_markers := false }

/-- The C8 counterexample input: splits into the chunks `"a b\n\nx. y"` and
`"ZZZZZZ"`; the overlap window of the second chunk is `"\n\nx. y"`, which
begins with a paragraph break at index 0. -/
def inC8 : Str := "a b\n\nx. y\nZZZZZZ".toList

/-- The processor state of the C5 counterexample: one job, stored at object
id 0. -/
def stC5 : ProcessorState :=
  { jobs_table := [(jid, 0)], heap := [(0, job1File)] }

/-- The successful outcomes of an outcome sequence, in order. -/
def successesOf : List (Str × Except Str RAGDocument) → List RAGDocument
  | [] => []
  | (_, Except.ok r) :: rest => r :: successesOf rest
  | (_, Except.error _) :: rest => successesOf rest

/-- The failed outcomes of an outcome sequence, in order, as
`(filename, message)` pairs. -/
def failuresOf : List (Str × Except Str RAGDocument) → List (Str × Str)
  | [] => []
  | (_, Except.ok _) :: rest => failuresOf rest
  | (n, Except.error e) :: rest => (n, e) :: failuresOf rest

/-- The first chunk of the C8 witness scenario. -/
def chA : Chunk := { content := "a b\n\nx. y".toList, index := 0, start_char := 0, end_char := 10 }

/-- The second chunk of the C8 witness scenario. -/
def chB : Chunk := { content := "ZZZZZZ".toList, index := 1, start_char := 10, end_char := 17 }

/-- The single chunk the chunker produces on `inC7`. -/
def chunkC7 : Chunk :=
  { content := "a|b\nc --- d".toList, index := 0, start_char := 0, end_char := 12,
    metadata := some { has_table := true } }

/-! ## The buffer invariant of `_chunk_section` (claim C4) -/

/-- An item the `_chunk_section` loop can append to its buffer: a single
line of the section, or the joined content of one of its protected blocks. -/
def sectionItem (lines : List Str) (blocks : List (Nat × Nat × Str)) (item : Str) : Prop :=
  item ∈ lines ∨ ∃ b ∈ blocks, item = blockContentOf lines b

/-- Invariant of the `current_chunk` buffer: it is empty, or it is a
newline-terminated string of length at most `chunk_size + 1` (a buffer only
grows past a single item when the size check admitted the growth), or it
consists of exactly one item followed by the appended newline. -/
def bufInv (size : Nat) (lines : List Str) (blocks : List (Nat × Nat × Str))
    (cur : Str) : Prop :=
  cur = [] ∨ ((∃ t, cur = t ++ ['\n']) ∧ cur.length ≤ size + 1) ∨
    (∃ item, sectionItem lines blocks item ∧ cur = item ++ ['\n'])

/-- The conclusion of the amended C4: a chunk fits the size bound unless its
content is the strip of one single item. -/
def chunkOkP (size : Nat) (lines : List Str) (blocks : List (Nat × Nat × Str))
    (c : Chunk) : Prop :=
  c.content.length ≤ size ∨
    ∃ item, sectionItem lines blocks item ∧ c.content = pyStrip item

/-- The single chunk the chunker produces on `inC4` (an oversized ordinary
line). -/
def chunkC4 : Chunk :=
  { content := "abcdefghij".toList, index := 0, start_char := 0, end_char := 11,
    metadata := some {} }

/-- The configuration of the C9 example: `chunkSize = 100`,
`respectHeadings = true`, `chunkOverlap = 0` (other options at their
defaults). -/
def cfgC9 : RAGConfig := { chunk_size := 100, respect_headings := true, chunk_overlap := 0 }

/-- The C9 example input. -/
def inC9 : Str := "# A\n\nshort\n\n# B\n\nshort2".toList

/-- A failed job with one partial result, for the C10 witness. -/
def jobFailedPartial : BatchJob :=
  { job_id := jid, status := JobStatus.failed, results := [doc1] }

/-- The processor state holding `jobFailedPartial` at object id 0. -/
def stC10 : ProcessorState :=
  { jobs_table := [(jid, 0)], heap := [(0, jobFailedPartial)] }

/-! ## Counterexamples -/

/-- C1 is false on the code: `enqueue` allocates `results` as the dataclass
default empty list, not pre-sized to `len(files)` — for two files its length
is 0, not 2. -/
theorem C1_counterexample : ¬ claimC1 := by
  intro h
  exact absurd (h [fileN1, fileN2] jid t0) (by decide)

/-- C2 is false on the code: cancelling a freshly enqueued one-file job
marks it `Failed`, but the still-running `_process_queue_job` then sets it
to `Processing`, appends the late worker result, and finally overwrites the
status with `Completed`. -/
theorem C2_counterexample : ¬ claimC2 := by
  intro h
  have h2 := h {} job1File [(fileN1, Except.ok doc1)] t1 (by decide)
  exact absurd h2.1 (by decide)

/-- C4 is false on the code: with `chunk_size = 5`, the single ordinary
10-character line `"abcdefghij"` (no protected block anywhere) is emitted as
one chunk of length 10, because the size check is skipped when the buffer is
empty. -/
theorem C4_counterexample : ¬ claimC4 := by
  intro h
  exact absurd (h cfgC4 inC4 rfl rfl) (by decide)

/-- C5 is false on the code: `get_status` returns the coordinator's own
mutable record (`return job`, no copy), so a later worker mutation through
the job table changes what the caller observes through the returned
reference. -/
theorem C5_counterexample : ¬ claimC5 := by
  intro h
  have h2 := h stC5 jid 0 (fun j => { j with processed_files := 1 }) rfl
  exact absurd h2 (by decide)

/-- C6 is false on the code: `_extract_frontmatter` only checks
`markdown.startswith("---")` and `markdown.find("---", 3)`, so the input
`"---abc---def"` — which contains no line consisting of `---` at all — is
nevertheless stripped (to `"def"`). -/
theorem C6_counterexample : ¬ claimC6 := by
  intro h
  exact absurd (h inC6 (by decide)) (by decide)

/-- C7 is false on the code: `has_table` is the bare conjunction
`"|" in content and "---" in content`, so the table-free prose
`"a|b\nc --- d"` gets `has_table = true` although none of its lines is even
separator-row-shaped. -/
theorem C7_counterexample : ¬ claimC7 := by
  intro h
  have h2 := h cfgC7 inC7 rfl rfl
  exact absurd h2 (by decide)

/-! ## Batch coordinator lemmas -/

/-- Every outcome is a success or a failure, so the two counts add up to
the number of attempted files. -/
theorem successes_failures_length (outs : List (Str × Except Str RAGDocument)) :
    (successesOf outs).length + (failuresOf outs).length = outs.length := by
  induction outs with
  | nil => rfl
  | cons x rest ih =>
    obtain ⟨n, out⟩ := x
    cases out with
    | ok r => simp [successesOf, failuresOf, ih]; omega
    | error e => simp [successesOf, failuresOf, ih]; omega

/-- Without `fail_fast`, the await loop records every outcome: the results
are the successes appended in input order, the counters add the numbers of
successes and failures, the errors map collects the failures, and no
exception escapes. -/
theorem run_loop_no_ff (cfg : BatchConfig) (h : cfg.fail_fast = false)
    (outs : List (Str × Except Str RAGDocument)) :
    ∀ job : BatchJob,
      (run_loop cfg outs job).2 = none ∧
      (run_loop cfg outs job).1.results = job.results ++ successesOf outs ∧
      (run_loop cfg outs job).1.processed_files
        = job.processed_files + (successesOf outs).length ∧
      (run_loop cfg outs job).1.failed_files
        = job.failed_files + (failuresOf outs).length ∧
      (run_loop cfg outs job).1.status = job.status ∧
      (run_loop cfg outs job).1.completed_at = job.completed_at ∧
      (run_loop cfg outs job).1.errors
        = (failuresOf outs).foldl (fun d p => dictInsert d p.1 p.2) job.errors := by
  induction outs with
  | nil => intro job; simp [run_loop, successesOf, failuresOf]
  | cons x rest ih =>
    intro job
    obtain ⟨n, out⟩ := x
    cases out with
    | ok r =>
      have := ih { job with
        results := job.results ++ [r], processed_files := job.processed_files + 1 }
      simp [run_loop, successesOf, failuresOf] at this ⊢
      refine ⟨this.1, ?_, ?_, ?_, ?_, ?_, ?_⟩ <;> simp [this] <;> omega
    | error e =>
      have := ih { job with
        errors := dictInsert job.errors n e, failed_files := job.failed_files + 1 }
      simp [run_loop, h, successesOf, failuresOf] at this ⊢
      refine ⟨this.1, ?_, ?_, ?_, ?_, ?_, ?_⟩ <;> simp [this] <;> omega

/-- With `fail_fast`, outcomes after the first failure are irrelevant: the
loop re-raises at the first failure, so the run is the same as if the input
sequence ended there. -/
theorem run_loop_ff_absorb (cfg : BatchConfig) (hff : cfg.fail_fast = true)
    (n e : Str) (post : List (Str × Except Str RAGDocument)) :
    ∀ (pre : List (Str × Except Str RAGDocument)) (job : BatchJob),
      (∀ x ∈ pre, ∃ d, x.2 = Except.ok d) →
      run_loop cfg (pre ++ (n, Except.error e) :: post) job
        = run_loop cfg (pre ++ [(n, Except.error e)]) job := by
  intro pre
  induction pre with
  | nil => intro job _; simp [run_loop, hff]
  | cons x rest ih =>
    intro job hok
    obtain ⟨nm, out⟩ := x
    obtain ⟨d, hd⟩ := hok (nm, out) (by simp)
    simp at hd
    subst hd
    simp only [List.cons_append, run_loop]
    exact ih _ (fun y hy => hok y (by simp [hy]))

/-- With `fail_fast`, a run whose input is an all-successful prefix followed
by one failure raises that failure's message, having recorded exactly the
prefix results and one failure. -/
theorem run_loop_ff_fields (cfg : BatchConfig) (hff : cfg.fail_fast = true) (n e : Str) :
    ∀ (pre : List (Str × Except Str RAGDocument)) (job : BatchJob),
      (∀ x ∈ pre, ∃ d, x.2 = Except.ok d) →
      (run_loop cfg (pre ++ [(n, Except.error e)]) job).2 = some e ∧
      (run_loop cfg (pre ++ [(n, Except.error e)]) job).1.results
        = job.results ++ successesOf pre ∧
      (run_loop cfg (pre ++ [(n, Except.error e)]) job).1.processed_files
        = job.processed_files + pre.length ∧
      (run_loop cfg (pre ++ [(n, Except.error e)]) job).1.failed_files
        = job.failed_files + 1 ∧
      (run_loop cfg (pre ++ [(n, Except.error e)]) job).1.status = job.status := by
  intro pre
  induction pre with
  | nil => intro job _; simp [run_loop, hff, successesOf]
  | cons x rest ih =>
    intro job hok
    obtain ⟨nm, out⟩ := x
    obtain ⟨d, hd⟩ := hok (nm, out) (by simp)
    simp at hd
    subst hd
    have := ih { job with
      results := job.results ++ [d], processed_files := job.processed_files + 1 }
      (fun y hy => hok y (by simp [hy]))
    simp only [List.cons_append, run_loop]
    simp [successesOf] at this ⊢
    refine ⟨this.1, ?_, ?_, this.2.2.2⟩ <;> simp [this] <;> omega

/-- A run of `_process_queue_job` without `fail_fast` delivered as a pair,
so that the `match` in `process_queue_job` can be reduced. -/
theorem run_loop_no_ff_pair (cfg : BatchConfig) (h : cfg.fail_fast = false)
    (outs : List (Str × Except Str RAGDocument)) (job : BatchJob) :
    run_loop cfg outs job = ((run_loop cfg outs job).1, none) := by
  rw [← (run_loop_no_ff cfg h outs job).1]

/-- Behaviour of a full `_process_queue_job` run without `fail_fast`: the
job always ends `Completed`, with the successes appended to `results` and
both counters advanced by the respective outcome counts. -/
theorem process_no_ff_spec (cfg : BatchConfig) (hff : cfg.fail_fast = false)
    (outs : List (Str × Except Str RAGDocument)) (job : BatchJob) (now : Str) :
    (process_queue_job cfg outs job now).status = JobStatus.completed ∧
    (process_queue_job cfg outs job now).results = job.results ++ successesOf outs ∧
    (process_queue_job cfg outs job now).processed_files
      = job.processed_files + (successesOf outs).length ∧
    (process_queue_job cfg outs job now).failed_files
      = job.failed_files + (failuresOf outs).length := by
  have hf := run_loop_no_ff cfg hff outs { job with status := JobStatus.processing }
  simp only [process_queue_job]
  rw [run_loop_no_ff_pair cfg hff]
  simp at hf
  simp [hf]

/-- Behaviour of a full `_process_queue_job` run with `fail_fast`, on an
all-successful prefix followed by a failure: the run ignores everything
after the failure, ends `Failed`, and has processed exactly the prefix. -/
theorem process_ff_spec (cfg : BatchConfig) (hff : cfg.fail_fast = true)
    (pre : List (Str × Except Str RAGDocument)) (n e : Str)
    (post : List (Str × Except Str RAGDocument)) (job : BatchJob) (now : Str)
    (hok : ∀ x ∈ pre, ∃ d, x.2 = Except.ok d) :
    process_queue_job cfg (pre ++ (n, Except.error e) :: post) job now
      = process_queue_job cfg (pre ++ [(n, Except.error e)]) job now ∧
    (process_queue_job cfg (pre ++ (n, Except.error e) :: post) job now).status
      = JobStatus.failed ∧
    (process_queue_job cfg (pre ++ (n, Except.error e) :: post) job now).results
      = job.results ++ successesOf pre ∧
    (process_queue_job cfg (pre ++ (n, Except.error e) :: post) job now).processed_files
      = job.processed_files + pre.length := by
  have hfld := run_loop_ff_fields cfg hff n e pre
    { job with status := JobStatus.processing } hok
  have heq : process_queue_job cfg (pre ++ (n, Except.error e) :: post) job now
      = process_queue_job cfg (pre ++ [(n, Except.error e)]) job now := by
    simp only [process_queue_job]
    rw [run_loop_ff_absorb cfg hff n e post pre
      { job with status := JobStatus.processing } hok]
  have hpair : run_loop cfg (pre ++ [(n, Except.error e)])
      { job with status := JobStatus.processing }
      = ((run_loop cfg (pre ++ [(n, Except.error e)])
          { job with status := JobStatus.processing }).1, some e) := by
    rw [← hfld.1]
  refine ⟨heq, ?_⟩
  rw [heq]
  simp only [process_queue_job]
  rw [hpair]
  simp at hfld
  simp [hfld]

/-- C1, amended: `enqueue` allocates `results` empty, and
`_process_queue_job` appends each successful outcome as its future is
awaited — in input order — while failed files append nothing.  The results
list therefore holds exactly the successful outcomes in input order (its
length is the processed-files counter), and outcomes after a failed file
shift forward instead of occupying their input index. -/
theorem C1_results_appended (files : List Str) (job_id now fin : Str)
    (cfg : BatchConfig) (outs : List (Str × Except Str RAGDocument))
    (h : cfg.fail_fast = false) :
    (enqueue files job_id now).results = [] ∧
    (process_queue_job cfg outs (enqueue files job_id now) fin).results
      = successesOf outs ∧
    (process_queue_job cfg outs (enqueue files job_id now) fin).results.length
      = (process_queue_job cfg outs (enqueue files job_id now) fin).processed_files := by
  have hs := process_no_ff_spec cfg h outs (enqueue files job_id now) fin
  refine ⟨rfl, ?_, ?_⟩
  · rw [hs.2.1]; simp [enqueue]
  · rw [hs.2.1, hs.2.2.1]; simp [enqueue]

/-- Witness for `C1_results_appended` at a concrete three-file batch whose
second file fails. -/
theorem C1_results_appended_witness :
    (enqueue [fileN1, fileN2, fileN3] jid t0).results = [] ∧
    (process_queue_job {} outs3 (enqueue [fileN1, fileN2, fileN3] jid t0) t1).results
      = successesOf outs3 ∧
    (process_queue_job {} outs3 (enqueue [fileN1, fileN2, fileN3] jid t0) t1).results.length
      = (process_queue_job {} outs3 (enqueue [fileN1, fileN2, fileN3] jid t0) t1).processed_files :=
  C1_results_appended [fileN1, fileN2, fileN3] jid t0 t1 {} outs3 rfl

/-- C2, amended: on a `Pending` or `Processing` job, `cancel` returns
`True`, sets the status to `Failed` and records `errors["cancelled"]` — but
that `Failed` state is not terminal: the still-running `_process_queue_job`
keeps appending late worker results and, when its loop finishes without a
fail-fast abort, overwrites the status with `Completed`, so the late results
and the `Completed` status do appear in subsequent snapshots. -/
theorem C2_cancel_not_terminal (job : BatchJob) (cfg : BatchConfig)
    (outs : List (Str × Except Str RAGDocument)) (now : Str)
    (hst : job.status = JobStatus.pending ∨ job.status = JobStatus.processing)
    (hff : cfg.fail_fast = false) :
    (cancel job).2 = true ∧
    (cancel job).1.status = JobStatus.failed ∧
    (cancel job).1.errors
      = dictInsert job.errors ("cancelled".toList) ("Job cancelled by user".toList) ∧
    (process_queue_job cfg outs (cancel job).1 now).status = JobStatus.completed ∧
    (process_queue_job cfg outs (cancel job).1 now).results
      = job.results ++ successesOf outs := by
  have hc : cancel job
      = ({ job with
            status := JobStatus.failed,
            errors := dictInsert job.errors ("cancelled".toList)
              ("Job cancelled by user".toList) },
          true) := by
    unfold cancel
    exact if_pos hst
  rw [hc]
  have hs := process_no_ff_spec cfg hff outs
    { job with
      status := JobStatus.failed,
      errors := dictInsert job.errors ("cancelled".toList)
        ("Job cancelled by user".toList) } now
  exact ⟨rfl, rfl, rfl, hs.1, hs.2.1⟩

/-- Witness for `C2_cancel_not_terminal`: cancelling a freshly enqueued
one-file job, then letting the worker finish. -/
theorem C2_cancel_not_terminal_witness :
    (cancel job1File).2 = true ∧
    (cancel job1File).1.status = JobStatus.failed ∧
    (cancel job1File).1.errors
      = dictInsert job1File.errors ("cancelled".toList) ("Job cancelled by user".toList) ∧
    (process_queue_job {} [(fileN1, Except.ok doc1)] (cancel job1File).1 t1).status
      = JobStatus.completed ∧
    (process_queue_job {} [(fileN1, Except.ok doc1)] (cancel job1File).1 t1).results
      = job1File.results ++ successesOf [(fileN1, Except.ok doc1)] :=
  C2_cancel_not_terminal job1File {} [(fileN1, Except.ok doc1)] t1 (Or.inl rfl) rfl

/-- C3: without `fail_fast` every file is attempted (the two counters add up
to the whole batch) and the job always reaches `Completed` — in particular
whenever at least one file succeeded — so `Failed` can only arise from a
fatal exception; with `fail_fast` the run is cut at the first per-file
failure: the job ends `Failed`, outcomes after the failure are never
recorded (the run equals the run of the truncated sequence), and exactly the
successful prefix was processed. -/
theorem C3_fail_fast_vs_collect (cfg : BatchConfig) (job : BatchJob) (now : Str) :
    (cfg.fail_fast = false →
      ∀ outs : List (Str × Except Str RAGDocument),
        (process_queue_job cfg outs job now).status = JobStatus.completed ∧
        (process_queue_job cfg outs job now).processed_files
          = job.processed_files + (successesOf outs).length ∧
        (process_queue_job cfg outs job now).failed_files
          = job.failed_files + (failuresOf outs).length ∧
        (successesOf outs).length + (failuresOf outs).length = outs.length) ∧
    (cfg.fail_fast = true →
      ∀ (pre : List (Str × Except Str RAGDocument)) (n e : Str)
        (post : List (Str × Except Str RAGDocument)),
        (∀ x ∈ pre, ∃ d, x.2 = Except.ok d) →
        process_queue_job cfg (pre ++ (n, Except.error e) :: post) job now
          = process_queue_job cfg (pre ++ [(n, Except.error e)]) job now ∧
        (process_queue_job cfg (pre ++ (n, Except.error e) :: post) job now).status
          = JobStatus.failed ∧
        (process_queue_job cfg (pre ++ (n, Except.error e) :: post) job now).results
          = job.results ++ successesOf pre ∧
        (process_queue_job cfg (pre ++ (n, Except.error e) :: post) job now).processed_files
          = job.processed_files + pre.length) := by
  constructor
  · intro hff outs
    have hs := process_no_ff_spec cfg hff outs job now
    exact ⟨hs.1, hs.2.2.1, hs.2.2.2, successes_failures_length outs⟩
  · intro hff pre n e post hok
    exact process_ff_spec cfg hff pre n e post job now hok

/-- Witness for `C3_fail_fast_vs_collect`: the spec's own example — three
files, the second fails.  Without `fail_fast` the job completes with
`processed_files = 2, failed_files = 1`; with `fail_fast` it fails and the
third file's outcome is never recorded. -/
theorem C3_fail_fast_vs_collect_witness :
    ((process_queue_job {} outs3 job3Files t1).status = JobStatus.completed ∧
      (process_queue_job {} outs3 job3Files t1).processed_files = 2 ∧
      (process_queue_job {} outs3 job3Files t1).failed_files = 1) ∧
    (process_queue_job { fail_fast := true } outs3 job3Files t1
        = process_queue_job { fail_fast := true }
            [(fileN1, Except.ok doc1), (fileN2, Except.error ("boom".toList))] job3Files t1 ∧
      (process_queue_job { fail_fast := true } outs3 job3Files t1).status
        = JobStatus.failed) := by
  have h1 := (C3_fail_fast_vs_collect {} job3Files t1).1 rfl outs3
  have h2 := (C3_fail_fast_vs_collect { fail_fast := true } job3Files t1).2 rfl
    [(fileN1, Except.ok doc1)] fileN2 ("boom".toList) [(fileN3, Except.ok doc3)]
    (by
      intro x hx
      rw [List.mem_singleton] at hx
      subst hx
      exact ⟨doc1, rfl⟩)
  refine ⟨⟨h1.1, ?_, ?_⟩, ?_, h2.2.1⟩
  · rw [h1.2.1]; decide
  · rw [h1.2.2.1]; decide
  · exact h2.1

/-- Overwriting a heap cell that is present changes what a dereference of
that cell observes. -/
theorem heapGet_heapSet (hp : List (Nat × BatchJob)) (oid : Nat) (j j2 : BatchJob)
    (h : heapGet hp oid = some j) : heapGet (heapSet hp oid j2) oid = some j2 := by
  induction hp with
  | nil => simp [heapGet] at h
  | cons p rest ih =>
    by_cases hp1 : p.1 = oid
    · have hb : (p.1 == oid) = true := by simp [hp1]
      simp [heapGet, heapSet, List.find?, hb]
    · have hb : (p.1 == oid) = false := by simp [hp1]
      have h2 : heapGet rest oid = some j := by
        simpa [heapGet, List.find?, hb] using h
      simpa [heapGet, heapSet, List.find?, hb] using ih h2

/-- C5, amended: `get_status` raises the not-found `ValueError` exactly when
the job id is absent, and otherwise returns the coordinator's internal
mutable record itself (in the heap model: the object id the table maps the
job id to) — an alias, not a copy, so a subsequent worker mutation of the
job is visible through the previously returned record. -/
theorem C5_get_status_alias (st : ProcessorState) (job_id : Str) :
    (tableGet st job_id = none →
      get_status st job_id = Except.error (("Job not found: ".toList) ++ job_id)) ∧
    (∀ oid, tableGet st job_id = some oid → get_status st job_id = Except.ok oid) ∧
    (∀ oid j f, get_status st job_id = Except.ok oid → heapGet st.heap oid = some j →
      heapGet (mutateJob st job_id f).heap oid = some (f j)) := by
  refine ⟨?_, ?_, ?_⟩
  · intro h; unfold get_status; rw [h]
  · intro oid h; unfold get_status; rw [h]
  · intro oid j f hok hj
    have htab : tableGet st job_id = some oid := by
      unfold get_status at hok
      cases h : tableGet st job_id with
      | none => rw [h] at hok; exact absurd hok (by simp)
      | some o => rw [h] at hok; simp at hok; rw [hok]
    have hred : (mutateJob st job_id f).heap = heapSet st.heap oid (f j) := by
      simp [mutateJob, htab, hj]
    rw [hred]
    exact heapGet_heapSet st.heap oid j (f j) hj

/-- Witness for `C5_get_status_alias` on the one-job state `stC5`: the
returned reference is object 0, and bumping `processed_files` through the
table is visible through it. -/
theorem C5_get_status_alias_witness :
    get_status stC5 jid = Except.ok 0 ∧
    heapGet (mutateJob stC5 jid (fun j => { j with processed_files := 1 })).heap 0
      = some { job1File with processed_files := 1 } :=
  ⟨(C5_get_status_alias stC5 jid).2.1 0 rfl,
    (C5_get_status_alias stC5 jid).2.2 0 job1File
      (fun j => { j with processed_files := 1 })
      ((C5_get_status_alias stC5 jid).2.1 0 rfl) rfl⟩

/-- C10: for a known job id, `get_result` with `wait = False` returns the
job's current results immediately, whatever the status — in particular for a
`Failed` job it returns the partial results instead of raising, while the
`wait = True` path is the one that raises (`RuntimeError` carrying the
errors map) on a `Failed` job. -/
theorem C10_get_result_no_wait (st : ProcessorState) (job_id : Str) (job : BatchJob)
    (h : jobLookup st job_id = some job) :
    get_result st job_id false = GetResultOutcome.ok job.results ∧
    (job.status = JobStatus.failed →
      get_result st job_id true = GetResultOutcome.failedJob job.errors) := by
  constructor
  · simp [get_result, h]
  · intro hst; simp [get_result, h, hst]

/-! ## Frontmatter lemmas (claim C6) -/

/-- A successful `findSubAux` search yields an index at or after the start
counter, at which the needle is a prefix of the remaining text. -/
theorem findSubAux_some (sub : Str) :
    ∀ (t : Str) (j e : Nat), findSubAux sub t j = some e →
      j ≤ e ∧ sub.isPrefixOf (t.drop (e - j)) = true := by
  intro t
  induction t with
  | nil =>
    intro j e h
    unfold findSubAux at h
    split at h
    next hc =>
      cases h
      exact ⟨Nat.le_refl _, by simpa [Nat.sub_self] using hc⟩
    next => cases h
  | cons c t ih =>
    intro j e h
    unfold findSubAux at h
    split at h
    next hc =>
      cases h
      exact ⟨Nat.le_refl _, by simpa [Nat.sub_self] using hc⟩
    next =>
      obtain ⟨h1, h2⟩ := ih (j + 1) e h
      refine ⟨Nat.le_of_succ_le h1, ?_⟩
      have he : e - j = (e - (j + 1)) + 1 := by omega
      rw [he]
      simpa [List.drop_succ_cons] using h2

/-- A successful `str.find(sub, start)` yields an index `≥ start` at which
the needle occurs. -/
theorem findFrom_some (s sub : Str) (start e : Nat) (h : findFrom s sub start = some e) :
    start ≤ e ∧ sub.isPrefixOf (s.drop e) = true := by
  unfold findFrom at h
  obtain ⟨h1, h2⟩ := findSubAux_some sub (s.drop start) start e h
  refine ⟨h1, ?_⟩
  rw [List.drop_drop] at h2
  rwa [Nat.add_comm, Nat.sub_add_cancel h1] at h2

/-- C6, amended: `_extract_frontmatter` strips a leading block exactly when
the input begins with the three characters `---` (not necessarily a whole
line) and the substring `---` occurs again at index ≥ 3; it removes
everything through that closing occurrence and additionally
whitespace-trims both the retained frontmatter and the remaining content;
any other input is returned unchanged with empty frontmatter. -/
theorem C6_frontmatter_amended (s : Str) :
    (dashes3.isPrefixOf s = false → extract_frontmatter s = (s, [])) ∧
    (findFrom s dashes3 3 = none → extract_frontmatter s = (s, [])) ∧
    (∀ e, dashes3.isPrefixOf s = true → findFrom s dashes3 3 = some e →
      ∃ fmRaw rest, s = dashes3 ++ fmRaw ++ dashes3 ++ rest ∧
        extract_frontmatter s = (pyStrip rest, pyStrip fmRaw)) := by
  refine ⟨?_, ?_, ?_⟩
  · intro h
    simp [extract_frontmatter, h]
  · intro h
    by_cases hpre : dashes3.isPrefixOf s = true
    · simp [extract_frontmatter, hpre, h]
    · simp at hpre
      simp [extract_frontmatter, hpre]
  · intro e hpre hfind
    obtain ⟨h3e, hocc⟩ := findFrom_some s dashes3 3 e hfind
    obtain ⟨t1, ht1⟩ := List.isPrefixOf_iff_prefix.mp hpre
    obtain ⟨t2, ht2⟩ := List.isPrefixOf_iff_prefix.mp hocc
    have hlen : dashes3.length = 3 := rfl
    have htake3 : s.take 3 = dashes3 := by
      rw [← ht1, ← hlen, List.take_left dashes3 t1]
    have ht2good : t2 = s.drop (e + 3) := by
      have hstep : (dashes3 ++ t2).drop 3 = t2 := by
        rw [← hlen, List.drop_left dashes3 t2]
      rw [ht2, List.drop_drop] at hstep
      rw [← hstep, Nat.add_comm]
    have hdropE : s.drop e = dashes3 ++ s.drop (e + 3) := by
      rw [← ht2, ht2good]
    have hmid : s.drop 3 = (s.drop 3).take (e - 3) ++ (dashes3 ++ s.drop (e + 3)) := by
      conv_lhs => rw [← List.take_append_drop (e - 3) (s.drop 3)]
      rw [List.drop_drop, Nat.add_comm 3 (e - 3), Nat.sub_add_cancel h3e, hdropE]
    refine ⟨(s.drop 3).take (e - 3), s.drop (e + 3), ?_, ?_⟩
    · conv_lhs => rw [← List.take_append_drop 3 s, htake3, hmid]
      simp [List.append_assoc]
    · have h0e : 0 < e := by omega
      simp [extract_frontmatter, hpre, hfind, h0e]

/-- Witness for `C6_frontmatter_amended` on a well-formed frontmatter input. -/
theorem C6_frontmatter_amended_witness :
    ∃ fmRaw rest, ("---\nt: 1\n---\nbody".toList : Str) = dashes3 ++ fmRaw ++ dashes3 ++ rest ∧
      extract_frontmatter ("---\nt: 1\n---\nbody".toList) = (pyStrip rest, pyStrip fmRaw) :=
  (C6_frontmatter_amended ("---\nt: 1\n---\nbody".toList)).2.2 9 (by decide) (by decide)

/-! ## Overlap decoration lemmas (claim C8) -/

/-- Overlap decoration never changes the number of chunks. -/
theorem add_overlap_go_length (cfg : RAGConfig) :
    ∀ (l : List Chunk) (prev : Str), (add_overlap_go cfg prev l).length = l.length := by
  intro l
  induction l with
  | nil => intro prev; rfl
  | cons d l ih => intro prev; simp [add_overlap_go, ih]

/-- One overlap step only rewrites `content`, and does so exactly when the
stripped, break-trimmed overlap window is non-empty. -/
theorem overlap_step_fields (cfg : RAGConfig) (prev : Str) (c : Chunk) :
    (overlap_step cfg prev c).start_char = c.start_char ∧
    (overlap_step cfg prev c).end_char = c.end_char ∧
    (overlap_step cfg prev c).index = c.index ∧
    (overlap_step cfg prev c).metadata = c.metadata ∧
    ((pyStrip (trimToBreak (takeLast cfg.chunk_overlap prev)) = [] ∧
        (overlap_step cfg prev c).content = c.content) ∨
      (pyStrip (trimToBreak (takeLast cfg.chunk_overlap prev)) ≠ [] ∧
        (overlap_step cfg prev c).content
          = ellipsisPrefix ++ pyStrip (trimToBreak (takeLast cfg.chunk_overlap prev))
            ++ nlnl ++ c.content)) := by
  unfold overlap_step
  by_cases h : pyStrip (trimToBreak (takeLast cfg.chunk_overlap prev)) = []
  · simp [h]
  · simp [h]

/-- In the decorated list `p :: go p.content l`, the element before position
`i` of `go` is some `q`, and the element at `i` is `l[i]` decorated with
`q`'s (already decorated) content. -/
theorem add_overlap_go_chain (cfg : RAGConfig) :
    ∀ (l : List Chunk) (p : Chunk) (i : Nat) (c : Chunk),
      l.get? i = some c →
        ∃ q, (p :: add_overlap_go cfg p.content l).get? i = some q ∧
          (add_overlap_go cfg p.content l).get? i = some (overlap_step cfg q.content c) := by
  intro l
  induction l with
  | nil => intro p i c h; simp at h
  | cons d l ih =>
    intro p i c h
    cases i with
    | zero =>
      rw [List.get?_cons_zero] at h
      injection h with h
      subst h
      exact ⟨p, by simp, by simp [add_overlap_go]⟩
    | succ i =>
      rw [List.get?_cons_succ] at h
      obtain ⟨q, hq1, hq2⟩ := ih (overlap_step cfg p.content d) i c h
      refine ⟨q, ?_, ?_⟩
      · simpa [add_overlap_go] using hq1
      · simpa [add_overlap_go] using hq2

/-- C8, amended: `_add_overlap` keeps the number of chunks and the first
chunk, and rewrites every later chunk `i` from the already-decorated content
of chunk `i - 1`: the overlap window (last `chunk_overlap` characters) is
trimmed at the first break found at index strictly greater than 0 —
scanning `"\n\n"`, then `". "`, then `"\n"` — the remainder is
whitespace-stripped, and only when that remainder is non-empty is the
content rewritten to `"[...] " + remainder + "\n\n" + originalContent`;
`start_char` and `end_char` are never changed. -/
theorem C8_overlap_amended (cfg : RAGConfig) (chunks : List Chunk) :
    (add_overlap cfg chunks).length = chunks.length ∧
    (add_overlap cfg chunks).get? 0 = chunks.get? 0 ∧
    (∀ i c, chunks.get? (i + 1) = some c →
      ∃ p, (add_overlap cfg chunks).get? i = some p ∧
        (add_overlap cfg chunks).get? (i + 1) = some (overlap_step cfg p.content c) ∧
        (overlap_step cfg p.content c).start_char = c.start_char ∧
        (overlap_step cfg p.content c).end_char = c.end_char ∧
        ((pyStrip (trimToBreak (takeLast cfg.chunk_overlap p.content)) = [] ∧
            (overlap_step cfg p.content c).content = c.content) ∨
          (pyStrip (trimToBreak (takeLast cfg.chunk_overlap p.content)) ≠ [] ∧
            (overlap_step cfg p.content c).content
              = ellipsisPrefix ++ pyStrip (trimToBreak (takeLast cfg.chunk_overlap p.content))
                ++ nlnl ++ c.content))) := by
  by_cases hlen : chunks.length ≤ 1
  · have ha : add_overlap cfg chunks = chunks := by
      unfold add_overlap
      rw [if_pos hlen]
    refine ⟨by rw [ha], by rw [ha], ?_⟩
    intro i c h
    exfalso
    have hnone : chunks.get? (i + 1) = none := List.get?_eq_none.mpr (by omega)
    rw [hnone] at h
    cases h
  · cases chunks with
    | nil => simp at hlen
    | cons c0 rest =>
      have ha : add_overlap cfg (c0 :: rest)
          = c0 :: add_overlap_go cfg c0.content rest := by
        unfold add_overlap
        rw [if_neg hlen]
      refine ⟨?_, ?_, ?_⟩
      · rw [ha]; simp [add_overlap_go_length]
      · rw [ha]; rfl
      · intro i c h
        rw [List.get?_cons_succ] at h
        obtain ⟨q, hq1, hq2⟩ := add_overlap_go_chain cfg rest c0 i c h
        have hf := overlap_step_fields cfg q.content c
        refine ⟨q, ?_, ?_, hf.1, hf.2.1, hf.2.2.2.2⟩
        · rw [ha]; exact hq1
        · rw [ha]; simpa using hq2

/-- Witness for `C8_overlap_amended` on a concrete two-chunk list. -/
theorem C8_overlap_amended_witness :
    ∃ p, (add_overlap cfgC8 [chA, chB]).get? 0 = some p ∧
      (add_overlap cfgC8 [chA, chB]).get? 1 = some (overlap_step cfgC8 p.content chB) ∧
      (overlap_step cfgC8 p.content chB).start_char = chB.start_char ∧
      (overlap_step cfgC8 p.content chB).end_char = chB.end_char ∧
      ((pyStrip (trimToBreak (takeLast cfgC8.chunk_overlap p.content)) = [] ∧
          (overlap_step cfgC8 p.content chB).content = chB.content) ∨
        (pyStrip (trimToBreak (takeLast cfgC8.chunk_overlap p.content)) ≠ [] ∧
          (overlap_step cfgC8 p.content chB).content
            = ellipsisPrefix ++ pyStrip (trimToBreak (takeLast cfgC8.chunk_overlap p.content))
              ++ nlnl ++ chB.content)) :=
  (C8_overlap_amended cfgC8 [chA, chB]).2.2 0 chB (by decide)

/-! ## Chunk provenance lemmas (claims C7 and C4) -/

/-- Every chunk produced by the `_chunk_section` loop either came from the
accumulator or is an emission `create_chunk _ _ _ _ title` for the section's
title. -/
theorem chunk_section_aux_mem (cfg : RAGConfig) (blocks : List (Nat × Nat × Str))
    (lines : List Str) (off : Nat) (title : Str) (idx0 : Nat) :
    ∀ (fuel i : Nat) (cur : Str) (curStart : Nat) (acc : List Chunk) (c : Chunk),
      c ∈ chunk_section_aux cfg blocks lines off title idx0 fuel i cur curStart acc →
        c ∈ acc ∨ ∃ ct idx s e, c = create_chunk ct idx s e title := by
  intro fuel
  induction fuel with
  | zero =>
    intro i cur curStart acc c hc
    simp only [chunk_section_aux] at hc
    split at hc
    · rcases List.mem_append.mp hc with h | h
      · exact Or.inl h
      · rw [List.mem_singleton] at h
        exact Or.inr ⟨_, _, _, _, h⟩
    · exact Or.inl hc
  | succ fuel ih =>
    intro i cur curStart acc c hc
    simp only [chunk_section_aux] at hc
    split at hc
    · -- lines.get? i = none: final flush
      split at hc
      · rcases List.mem_append.mp hc with h | h
        · exact Or.inl h
        · rw [List.mem_singleton] at h
          exact Or.inr ⟨_, _, _, _, h⟩
      · exact Or.inl hc
    · -- some line
      split at hc
      · -- a protected block starts here
        split at hc
        · -- close the current chunk first
          rcases ih _ _ _ _ c hc with h | h
          · rcases List.mem_append.mp h with h2 | h2
            · exact Or.inl h2
            · rw [List.mem_singleton] at h2
              exact Or.inr ⟨_, _, _, _, h2⟩
          · exact Or.inr h
        · rcases ih _ _ _ _ c hc with h | h
          · exact Or.inl h
          · exact Or.inr h
      · -- ordinary line
        split at hc
        · rcases ih _ _ _ _ c hc with h | h
          · rcases List.mem_append.mp h with h2 | h2
            · exact Or.inl h2
            · rw [List.mem_singleton] at h2
              exact Or.inr ⟨_, _, _, _, h2⟩
          · exact Or.inr h
        · rcases ih _ _ _ _ c hc with h | h
          · exact Or.inl h
          · exact Or.inr h

/-- Every chunk of a section is an emission for that section's title. -/
theorem chunk_section_mem (cfg : RAGConfig) (content title : Str) (idx off : Nat)
    (c : Chunk) (hc : c ∈ chunk_section cfg content title idx off) :
    ∃ ct i s e, c = create_chunk ct i s e title := by
  rcases chunk_section_aux_mem cfg (find_protected_blocks content) (splitLines content)
      off title idx ((splitLines content).length + 1) 0 [] off [] c hc with h | h
  · cases h
  · exact h

/-- Every chunk assembled by the section fold came from the initial
accumulator or from `_chunk_section` on one of the sections. -/
theorem chunk_core_fold_mem (cfg : RAGConfig) :
    ∀ (sections : List (Str × Str)) (st : List Chunk × Nat × Nat) (c : Chunk),
      c ∈ (sections.foldl (chunk_core_step cfg) st).1 →
        c ∈ st.1 ∨ ∃ s ∈ sections, ∃ idx off, c ∈ chunk_section cfg s.2 s.1 idx off := by
  intro sections
  induction sections with
  | nil => intro st c hc; exact Or.inl hc
  | cons s rest ih =>
    intro st c hc
    rw [List.foldl_cons] at hc
    rcases ih (chunk_core_step cfg st s) c hc with h | h
    · simp only [chunk_core_step] at h
      rcases List.mem_append.mp h with h2 | h2
      · exact Or.inl h2
      · exact Or.inr ⟨s, by simp, st.2.1, st.2.2, h2⟩
    · obtain ⟨s2, hs2, idx, off, hmem⟩ := h
      exact Or.inr ⟨s2, by simp [hs2], idx, off, hmem⟩

/-- Every chunk of the undecorated pipeline is an emission of
`_create_chunk` on its own stored content. -/
theorem chunk_core_mem (cfg : RAGConfig) (md : Str) (c : Chunk)
    (hc : c ∈ chunk_core cfg md) :
    ∃ title ct i s e, c = create_chunk ct i s e title := by
  simp only [chunk_core] at hc
  rcases chunk_core_fold_mem cfg _ _ c hc with h | h
  · cases h
  · obtain ⟨s, _, idx, off, hmem⟩ := h
    obtain ⟨ct, i, sc, ec, hce⟩ := chunk_section_mem cfg s.2 s.1 idx off c hmem
    exact ⟨s.1, ct, i, sc, ec, hce⟩

/-- C7, amended: for every chunk of the (undecorated) chunker pipeline, the
`hasTable` flag is exactly the bare syntactic conjunction
`"|" in content and "---" in content` — the presence of a pipe character and
of the substring `---` anywhere in the chunk's content; no table row or
separator row is required or checked. -/
theorem C7_has_table_amended (cfg : RAGConfig) (md : Str) (c : Chunk)
    (hov : cfg.chunk_overlap = 0) (hmk : cfg.add_chunk_markers = false)
    (hc : c ∈ chunkDoc cfg md) :
    c.metadata.map ChunkMetadata.has_table
      = some (containsSub c.content pipe1 && containsSub c.content dashes3) := by
  have hcd : chunkDoc cfg md = chunk_core cfg md := by
    simp [chunkDoc, hov, hmk]
  rw [hcd] at hc
  obtain ⟨title, ct, i, s, e, hce⟩ := chunk_core_mem cfg md c hc
  subst hce
  rfl

/-- Witness for `C7_has_table_amended` on the concrete `inC7` pipeline
output: the flag is set although the content has no table. -/
theorem C7_has_table_amended_witness :
    chunkC7.metadata.map ChunkMetadata.has_table
      = some (containsSub chunkC7.content pipe1 && containsSub chunkC7.content dashes3) :=
  C7_has_table_amended cfgC7 inC7 chunkC7 rfl rfl (by decide)

/-! ## String lemmas for the chunk-size bound (claim C4) -/

/-- Dropping a prefix cannot lengthen a list. -/
theorem length_dropWhile_le (p : Char → Bool) (l : Str) :
    (l.dropWhile p).length ≤ l.length := by
  induction l with
  | nil => exact Nat.le_refl 0
  | cons a l ih =>
    rw [List.dropWhile_cons]
    by_cases h : p a = true
    · simp only [h, if_true]
      exact Nat.le_trans ih (Nat.le_succ _)
    · simp only [h, if_false]
      exact Nat.le_refl _

/-- Stripping cannot lengthen a string. -/
theorem pyStrip_length_le (s : Str) : (pyStrip s).length ≤ s.length := by
  unfold pyStrip
  rw [List.length_reverse]
  calc ((s.dropWhile pyIsSpace).reverse.dropWhile pyIsSpace).length
      ≤ (s.dropWhile pyIsSpace).reverse.length := length_dropWhile_le _ _
    _ = (s.dropWhile pyIsSpace).length := List.length_reverse _
    _ ≤ s.length := length_dropWhile_le _ _

/-- Stripping swallows a leading whitespace character. -/
theorem pyStrip_cons_ws (c : Char) (s : Str) (h : pyIsSpace c = true) :
    pyStrip (c :: s) = pyStrip s := by
  unfold pyStrip
  simp only [List.dropWhile_cons, h, if_true]

/-- Stripping a string that starts with a non-whitespace character only
trims from the right. -/
theorem pyStrip_cons_not_ws (c : Char) (s : Str) (h : pyIsSpace c = false) :
    pyStrip (c :: s) = ((s.reverse ++ [c]).dropWhile pyIsSpace).reverse := by
  unfold pyStrip
  simp only [List.dropWhile_cons, h, Bool.false_eq_true, if_false, List.reverse_cons]

/-- A trailing newline never survives stripping. -/
theorem pyStrip_append_newline (t : Str) : pyStrip (t ++ ['\n']) = pyStrip t := by
  induction t with
  | nil => decide
  | cons c t ih =>
    by_cases h : pyIsSpace c = true
    · rw [List.cons_append, pyStrip_cons_ws c _ h, pyStrip_cons_ws c t h, ih]
    · have hb : pyIsSpace c = false := by
        revert h; cases pyIsSpace c <;> simp
      have hnl : pyIsSpace '\n' = true := rfl
      rw [List.cons_append, pyStrip_cons_not_ws c _ hb, pyStrip_cons_not_ws c t hb]
      congr 1
      rw [List.reverse_append, List.reverse_singleton]
      simp only [List.nil_append, List.cons_append, List.dropWhile_cons, hnl, if_true]

/-- Flushing a buffer that satisfies the invariant emits a chunk satisfying
the amended bound. -/
theorem create_chunk_ok (size : Nat) (lines : List Str) (blocks : List (Nat × Nat × Str))
    (cur : Str) (idx s e : Nat) (title : Str) (h : bufInv size lines blocks cur) :
    chunkOkP size lines blocks (create_chunk (pyStrip cur) idx s e title) := by
  rcases h with h | ⟨⟨t, ht⟩, hlen⟩ | ⟨item, hit, hcur⟩
  · subst h
    exact Or.inl (Nat.zero_le _)
  · subst ht
    left
    show (pyStrip (t ++ ['\n'])).length ≤ size
    rw [pyStrip_append_newline]
    have h1 := pyStrip_length_le t
    have h2 : (t ++ ['\n']).length = t.length + 1 := by simp
    omega
  · subst hcur
    right
    refine ⟨item, hit, ?_⟩
    show pyStrip (item ++ ['\n']) = pyStrip item
    exact pyStrip_append_newline item

/-- Appending an admissible item to the buffer preserves the invariant. -/
theorem bufInv_append (size : Nat) (lines : List Str) (blocks : List (Nat × Nat × Str))
    (cur item : Str) (hitem : sectionItem lines blocks item)
    (hfit : cur = [] ∨ cur.length + item.length ≤ size) :
    bufInv size lines blocks (cur ++ item ++ ['\n']) := by
  rcases hfit with h | h
  · subst h
    exact Or.inr (Or.inr ⟨item, hitem, by simp⟩)
  · refine Or.inr (Or.inl ⟨⟨cur ++ item, by rw [List.append_assoc]⟩, ?_⟩)
    simp
    omega

/-- Chunks accumulated so far stay admissible after one more emission. -/
theorem acc_ok_extend (size : Nat) (lines : List Str) (blocks : List (Nat × Nat × Str))
    (acc : List Chunk) (cc : Chunk)
    (hacc : ∀ c ∈ acc, chunkOkP size lines blocks c) (hcc : chunkOkP size lines blocks cc) :
    ∀ c ∈ acc ++ [cc], chunkOkP size lines blocks c := by
  intro c hc
  rcases List.mem_append.mp hc with h | h
  · exact hacc c h
  · rw [List.mem_singleton] at h
    subst h
    exact hcc

/-- Main invariant argument for the amended C4: starting from an admissible
buffer and admissible accumulated chunks, every chunk the `_chunk_section`
loop produces is admissible — it fits `chunk_size`, or it is the strip of a
single line or single protected block. -/
theorem chunk_section_aux_ok (cfg : RAGConfig) (blocks : List (Nat × Nat × Str))
    (lines : List Str) (off : Nat) (title : Str) (idx0 : Nat) :
    ∀ (fuel i : Nat) (cur : Str) (curStart : Nat) (acc : List Chunk),
      bufInv cfg.chunk_size lines blocks cur →
      (∀ c ∈ acc, chunkOkP cfg.chunk_size lines blocks c) →
      ∀ c ∈ chunk_section_aux cfg blocks lines off title idx0 fuel i cur curStart acc,
        chunkOkP cfg.chunk_size lines blocks c := by
  intro fuel
  induction fuel with
  | zero =>
    intro i cur curStart acc hinv hacc c hc
    simp only [chunk_section_aux] at hc
    split at hc
    · exact acc_ok_extend _ _ _ _ _ hacc
        (create_chunk_ok _ _ _ _ _ _ _ _ hinv) c hc
    · exact hacc c hc
  | succ fuel ih =>
    intro i cur curStart acc hinv hacc c hc
    simp only [chunk_section_aux] at hc
    split at hc
    · -- loop exit: final flush
      split at hc
      · exact acc_ok_extend _ _ _ _ _ hacc
          (create_chunk_ok _ _ _ _ _ _ _ _ hinv) c hc
      · exact hacc c hc
    · -- a line is available
      rename_i line hline
      split at hc
      · -- a protected block starts at this line
        rename_i b hfind
        have hb1 : b.1 = i := by
          have := List.find?_some hfind
          simpa using this
        have hbmem := List.mem_of_find?_eq_some hfind
        have hbb : ((i : Nat), b.2) = b := by
          rw [← hb1]
        have hitem : sectionItem lines blocks (blockContentOf lines (i, b.2)) :=
          Or.inr ⟨b, hbmem, by rw [hbb]⟩
        split at hc
        · -- the block did not fit: flush, then start a fresh buffer with it
          exact ih _ _ _ _
            (bufInv_append _ _ _ _ _ hitem (Or.inl rfl))
            (acc_ok_extend _ _ _ _ _ hacc (create_chunk_ok _ _ _ _ _ _ _ _ hinv))
            c hc
        · -- the block was appended to the current buffer
          rename_i hcl
          have hfit : cur = [] ∨
              cur.length + (blockContentOf lines (i, b.2)).length ≤ cfg.chunk_size := by
            by_cases hce : cur = []
            · exact Or.inl hce
            · refine Or.inr (Nat.le_of_not_lt (fun hlt => hcl ⟨hlt, hce⟩))
          exact ih _ _ _ _ (bufInv_append _ _ _ _ _ hitem hfit) hacc c hc
      · -- an ordinary line
        have hitem : sectionItem lines blocks line := Or.inl (List.get?_mem hline)
        split at hc
        · exact ih _ _ _ _
            (bufInv_append _ _ _ _ _ hitem (Or.inl rfl))
            (acc_ok_extend _ _ _ _ _ hacc (create_chunk_ok _ _ _ _ _ _ _ _ hinv))
            c hc
        · rename_i hcl
          have hfit : cur = [] ∨ cur.length + line.length ≤ cfg.chunk_size := by
            by_cases hce : cur = []
            · exact Or.inl hce
            · exact Or.inr (Nat.le_of_not_lt (fun hlt => hcl ⟨hlt, hce⟩))
          exact ih _ _ _ _ (bufInv_append _ _ _ _ _ hitem hfit) hacc c hc

/-- Every chunk of a section fits `chunk_size` or is the strip of one item
of the section. -/
theorem chunk_section_ok (cfg : RAGConfig) (content title : Str) (idx off : Nat) :
    ∀ c ∈ chunk_section cfg content title idx off,
      chunkOkP cfg.chunk_size (splitLines content) (find_protected_blocks content) c := by
  intro c hc
  exact chunk_section_aux_ok cfg (find_protected_blocks content) (splitLines content)
    off title idx ((splitLines content).length + 1) 0 [] off []
    (Or.inl rfl) (fun c2 h2 => absurd h2 (List.not_mem_nil c2)) c hc

/-- C4, amended: for every input and every configuration that leaves chunks
undecorated, every chunk of the chunker either has content of length at
most `chunk_size`, or its content is the whitespace-strip of one single item
of its section — a single (possibly oversized) line, or a single protected
block.  A non-protected line entering an empty buffer is thus a second way —
besides oversized protected blocks — for a chunk to exceed `chunk_size`. -/
theorem C4_size_bound_amended (cfg : RAGConfig) (md : Str)
    (hov : cfg.chunk_overlap = 0) (hmk : cfg.add_chunk_markers = false) :
    ∀ c ∈ chunkDoc cfg md,
      c.content.length ≤ cfg.chunk_size ∨
      ∃ s, s ∈ (if cfg.respect_headings then split_by_headings ((extract_frontmatter md).1)
            else [(([] : Str), (extract_frontmatter md).1)]) ∧
        ∃ item, sectionItem (splitLines s.2) (find_protected_blocks s.2) item ∧
          c.content = pyStrip item := by
  intro c hc
  have hcd : chunkDoc cfg md = chunk_core cfg md := by
    simp [chunkDoc, hov, hmk]
  rw [hcd] at hc
  simp only [chunk_core] at hc
  rcases chunk_core_fold_mem cfg _ _ c hc with h | h
  · cases h
  · obtain ⟨s, hs, idx, off, hmem⟩ := h
    rcases chunk_section_ok cfg s.2 s.1 idx off c hmem with h2 | ⟨item, hitem, hct⟩
    · exact Or.inl h2
    · exact Or.inr ⟨s, hs, item, hitem, hct⟩

/-- Witness for `C4_size_bound_amended` on the concrete oversized-line
input. -/
theorem C4_size_bound_amended_witness :
    chunkC4.content.length ≤ cfgC4.chunk_size ∨
    ∃ s, s ∈ (if cfgC4.respect_headings then split_by_headings ((extract_frontmatter inC4).1)
          else [(([] : Str), (extract_frontmatter inC4).1)]) ∧
      ∃ item, sectionItem (splitLines s.2) (find_protected_blocks s.2) item ∧
        chunkC4.content = pyStrip item :=
  C4_size_bound_amended cfgC4 inC4 rfl rfl chunkC4 (by decide)

/-- C9: on the spec's end-to-end example the chunker produces exactly two
chunks, with section titles `"A"` and `"B"` and indices 0 and 1. -/
theorem C9_end_to_end :
    (chunkDoc cfgC9 inC9).length = 2 ∧
    (chunkDoc cfgC9 inC9).map (fun c => c.metadata.map ChunkMetadata.section_title)
      = [some ("A".toList), some ("B".toList)] ∧
    (chunkDoc cfgC9 inC9).map Chunk.index = [0, 1] := by
  decide

/-- Witness for `C10_get_result_no_wait` on a state holding a failed job
with partial results. -/
theorem C10_get_result_no_wait_witness :
    get_result stC10 jid false = GetResultOutcome.ok [doc1] ∧
    get_result stC10 jid true = GetResultOutcome.failedJob [] :=
  ⟨(C10_get_result_no_wait stC10 jid jobFailedPartial rfl).1,
    (C10_get_result_no_wait stC10 jid jobFailedPartial rfl).2 rfl⟩

/-- C8 is false on the code: on `inC8` the second chunk's overlap window is
`"\n\nx. y"`.  The spec's rule trims at the paragraph break (index 0),
giving `"[...] x. y\n\nZZZZZZ"`, but the source skips breaks at index 0
(`if idx > 0`), trims at `". "` instead and strips, producing
`"[...] y\n\nZZZZZZ"`. -/
theorem C8_counterexample : ¬ claimC8 := by
  intro h
  exact absurd (h cfgC8 inC8 (by decide) rfl).1 (by decide)

end DocFlow
